import Mathlib

/-! Gopher Jump: the per-frame state machine of `src/game/main.go`.

A shallow embedding of the simulation state (`Game`, `ebifry`, `ground`) and of
the functions that mutate it (`Game.init`, `Game.Update`, `Game.hit`,
`Game.Draw`), followed by theorems about them.

Modelling conventions.

* Go `int` values are mathematical integers (`Int`); `/` and `%` on them are the
  truncating `Int.tdiv` and `Int.tmod`, as in Go.  Wrap-around at the machine word
  size is not modelled.
* Go `float64` values are exact rationals (`ℚ`).  Every value the game computes
  from `NewGame` is a multiple of `1/2` of small magnitude, on which `float64`
  arithmetic is exact; NaN and infinities are not modelled.
* A pointer to a struct is the struct itself: the three obstacle pointers made
  by `init` are distinct and never reassigned elsewhere, so the obstacle array
  is a list of slot values, read and written in array order.
* The two inputs of a tick are explicit arguments of `Update`: `key` is the
  result of `isKeyJustPressed()`, and `draws j` is the value returned by the
  `j`-th call of `rand.Intn(10)` made during that tick.
* Rendering calls (`screen.DrawImage`, `text.Draw`, ...) have no effect on the
  game state and are left out; the state changes made while drawing are kept.
-/

namespace GopherJump

/-! ## Constants -/

def baseX : Int := 190
def groundY : Int := 110
def speed : Int := 12
def jumpingPower : ℚ := 17 / 2
def gravity : ℚ := 1 / 2
def interval : Int := 10
def minEbifryDist : Int := 50
def maxEbifryCount : Nat := 3

def modeTitle : Int := 0
def modeGame : Int := 1
def modeGameover : Int := 2

def gopherHeight : Int := 25
def groundWidth : Int := 50

def gopherFrameOX : Int := 324
def gopherFrameWidth : Int := 12
def gopherFrameCount : Int := 27

/-! ## Obstacles -/

/-- One obstacle slot (`type ebifry struct`). -/
structure ebifry where
  count : Int
  x : Int
  y : ℚ
  visible : Bool
deriving DecidableEq

/-- The zero value `ebifry{}`. -/
def ebifry.zero : ebifry := { count := 0, x := 0, y := 0, visible := false }

/-- `func (t *ebifry) move(speed int)`. -/
def ebifry.move (t : ebifry) (speed : Int) : ebifry := { t with x := t.x + speed }

/-- `func (t *ebifry) show()`. -/
def ebifry.show_ (t : ebifry) : ebifry := { t with x := 0, y := (groundY : ℚ), visible := true }

/-- `func (t *ebifry) hide()`. -/
def ebifry.hide (t : ebifry) : ebifry := { t with visible := false }

/-- `func (t *ebifry) isOutOfScreen() bool`. -/
def ebifry.isOutOfScreen (t : ebifry) : Bool := decide (t.x > 3000)

/-! ## Ground -/

/-- The scrolling ground (`type ground struct`). -/
structure ground where
  count : Int
  x : Int
  y : Int
deriving DecidableEq

/-- `func (g *ground) move(speed int)`. -/
def ground.move (g : ground) (speed : Int) : ground :=
  let g1 : ground := { g with x := g.x + speed }
  if g1.x > -groundWidth then { g1 with x := g1.x - groundWidth } else g1

/-! ## Game state -/

/-- The game state (`type Game struct`). -/
structure Game where
  mode : Int
  count : Int
  score : Int
  hiscore : Int
  gopherX : Int
  gopherY : ℚ
  gy : ℚ
  jumpFlg : Bool
  ebifrys : List ebifry
  lastEbifryX : Int
  ground : ground
deriving DecidableEq

/-- The zero value `Game{}` that `NewGame` starts from: every scalar is zero, and
no obstacle or ground has been allocated yet (`init` allocates them). -/
def Game.zero : Game :=
  { mode := 0, count := 0, score := 0, hiscore := 0, gopherX := 0, gopherY := 0, gy := 0,
    jumpFlg := false, ebifrys := [], lastEbifryX := 0, ground := { count := 0, x := 0, y := 0 } }

/-- `func (g *Game) init()`. -/
def Game.init (g : Game) : Game :=
  { g with
    hiscore := g.score
    count := 0
    score := 0
    lastEbifryX := 0
    gy := 0
    gopherX := baseX
    gopherY := ((groundY - gopherHeight : Int) : ℚ)
    ebifrys := List.replicate maxEbifryCount ebifry.zero
    ground := { count := 0, x := 0, y := groundY - 30 } }

/-- `func NewGame() *Game`. -/
def NewGame : Game := Game.zero.init

/-- The loop of `hit()` over the obstacle slots, in array order. -/
def hitLoop (gopherY : ℚ) : List ebifry → Bool
  | [] => false
  | t :: ts =>
    if t.visible then
      if t.x > 2000 ∧ t.x < 2200 ∧ (340 : ℚ) = gopherY * 4 then true
      else hitLoop gopherY ts
    else hitLoop gopherY ts

/-- `func (g *Game) hit() bool`. -/
def Game.hit (g : Game) : Bool := hitLoop g.gopherY g.ebifrys

/-- The obstacle loop of `Update` (`for _, t := range g.ebifrys`).  `gc` is
`g.ground.count`, `last` is `g.lastEbifryX` and `k` counts the calls of
`rand.Intn(10)` made so far in this tick.  The result is the slots after the
loop, the new `g.lastEbifryX` and the number of calls made.  The random source
is consulted only when the two gating tests before it hold (`&&` short-circuits),
and a spawn leaves the loop (`break`), so the remaining slots are untouched. -/
def scanEbifrys (gc : Int) (draws : Nat → Int) (last : Int) :
    Nat → List ebifry → List ebifry × Int × Nat
  | k, [] => ([], last, k)
  | k, t :: ts =>
    if t.visible then
      let t1 := t.move speed
      let t2 := if t1.isOutOfScreen then t1.hide else t1
      let r := scanEbifrys gc draws last k ts
      (t2 :: r.1, r.2.1, r.2.2)
    else if gc - last > minEbifryDist ∧ Int.tmod gc interval = 0 then
      if draws k = 0 then (t.show_ :: ts, gc, k + 1)
      else
        let r := scanEbifrys gc draws last (k + 1) ts
        (t :: r.1, r.2.1, r.2.2)
    else
      let r := scanEbifrys gc draws last k ts
      (t :: r.1, r.2.1, r.2.2)

/-- The `modeGame` branch of `Update`, statement by statement. -/
def Game.tick (key : Bool) (draws : Nat → Int) (g : Game) : Game :=
  let g1 : Game := { g with count := g.count + 1 }
  let g2 : Game := { g1 with score := Int.tdiv g1.count 5 }
  let g3 : Game := { g2 with ground := { g2.ground with count := g2.ground.count + 1 } }
  let g4 : Game :=
    if !g3.jumpFlg && key then { g3 with jumpFlg := true, gy := -jumpingPower } else g3
  let g5 : Game :=
    if g4.jumpFlg then { g4 with gopherY := g4.gopherY + g4.gy, gy := g4.gy + gravity } else g4
  let g6 : Game :=
    if g5.gopherY ≥ ((groundY - gopherHeight : Int) : ℚ) then { g5 with jumpFlg := false } else g5
  let r := scanEbifrys g6.ground.count draws g6.lastEbifryX 0 g6.ebifrys
  let g7 : Game := { g6 with ebifrys := r.1, lastEbifryX := r.2.1 }
  let g8 : Game := { g7 with ground := g7.ground.move speed }
  if g8.hit then { g8 with mode := modeGameover } else g8

/-- `func (g *Game) Update() error` (it always returns `nil`).  A mode other than
the three constants matches no `case` and leaves the state alone. -/
def Game.Update (key : Bool) (draws : Nat → Int) (g : Game) : Game :=
  if g.mode = modeTitle then
    if key then { g with mode := modeGame } else g
  else if g.mode = modeGame then
    g.tick key draws
  else if g.mode = modeGameover then
    if key then { g.init with mode := modeGame } else g
  else g

/-- `func (g *Game) drawEbifrys(screen)`: a visible slot gets `t.y = 900`. -/
def Game.drawEbifrys (g : Game) : Game :=
  { g with ebifrys := g.ebifrys.map (fun t => if t.visible then { t with y := 900 } else t) }

/-- `func (g *Game) drawGopher(screen)`: the animation frame is taken from
`count`, and `count` is set back to 0 when the frame's left edge is at most 96. -/
def Game.drawGopher (g : Game) : Game :=
  let i := Int.tmod (Int.tdiv g.count 5) gopherFrameCount
  let sx := gopherFrameOX - i * gopherFrameWidth
  if sx ≤ 96 then { g with count := 0 } else g

/-- `func (g *Game) Draw(screen)` with `debug = false`. -/
def Game.Draw (g : Game) : Game := g.drawEbifrys.drawGopher

/-- The states the host loop can produce from `NewGame()`: any interleaving of
`Update` (with any input and any random draws) and `Draw`. -/
inductive Reachable : Game → Prop
  | newGame : Reachable NewGame
  | update (key : Bool) (draws : Nat → Int) {g : Game} :
      Reachable g → Reachable (g.Update key draws)
  | draw {g : Game} : Reachable g → Reachable g.Draw

/-- The state after the ticks `keys`/`draws` listed in `inputs`, first one first. -/
def runUpdates : List (Bool × (Nat → Int)) → Game → Game
  | [], g => g
  | i :: is, g => runUpdates is (g.Update i.1 i.2)

/-- The constant random source: every call of `rand.Intn(10)` returns 0. -/
def zeroDraws : Nat → Int := fun _ => 0

/-- A fresh game that has just entered `modeGame`: `NewGame()` followed by one
`Update` in `modeTitle` with the key pressed. -/
def freshPlaying : Game := NewGame.Update true zeroDraws

/-- A slot went from hidden to visible: `p.1` is the slot before a tick and `p.2`
the same slot after it. -/
def spawnedSlot (p : ebifry × ebifry) : Bool := !p.1.visible && p.2.visible

/-- The number of hidden slots before slot `i`.  On a tick on which the two gating
tests hold and no slot before `i` is spawned, each of them costs one call of
`rand.Intn(10)`, so this is the index of the draw consulted for slot `i`. -/
def drawIndex (l : List ebifry) (i : Nat) : Nat := (l.take i).countP (fun s => !s.visible)

/-- The two gating tests that the next tick in `modeGame` will make before it
consults the random source: `g.ground.count` has been incremented by then. -/
def spawnGate (g : Game) : Prop :=
  (g.ground.count + 1) - g.lastEbifryX > minEbifryDist ∧
    Int.tmod (g.ground.count + 1) interval = 0

instance (g : Game) : Decidable (spawnGate g) := by
  unfold spawnGate
  infer_instance

/-- The state 59 ticks after `freshPlaying`, with the key never pressed and every
draw 0: the next tick is the first one that passes the two gating tests. -/
def beforeFirstSpawn : Game := runUpdates (List.replicate 59 (false, zeroDraws)) freshPlaying

/-- The state 60 ticks after `freshPlaying`, with the key never pressed and every
draw 0. -/
def afterFirstSpawn : Game := runUpdates (List.replicate 60 (false, zeroDraws)) freshPlaying

/-- The state after the ticks whose key inputs are `keys`, with a random source
that always returns 0. -/
def playKeys (keys : List Bool) (g : Game) : Game :=
  runUpdates (keys.map (fun b => (b, zeroDraws))) g

/-- The state 227 ticks after `freshPlaying`, with the key never pressed and every
draw 0: the obstacle spawned on tick 60 reaches `x = 2004` and hits the player. -/
def afterCollision : Game := runUpdates (List.replicate 227 (false, zeroDraws)) freshPlaying

/-- A random source that never returns 0: every call of `rand.Intn(10)` returns 1. -/
def oneDraws : Nat → Int := fun _ => 1

/-- The state 226 ticks after `freshPlaying`, with the key never pressed and every
draw 0: the next tick is the one that detects the first collision. -/
def beforeCollision : Game := runUpdates (List.replicate 226 (false, zeroDraws)) freshPlaying

/-- The end of a second round.  In the first round no draw is 0 until tick 70, so
the first obstacle is spawned on tick 70 and hits the player on tick 237 (score
47); the key restarts the game; in the second round every draw is 0 and the
collision comes on tick 227 (score 45). -/
def secondCollision : Game :=
  runUpdates
    (List.replicate 69 (false, oneDraws) ++ List.replicate 168 (false, zeroDraws) ++
      [(true, zeroDraws)] ++ List.replicate 227 (false, zeroDraws))
    freshPlaying

/-- The player stands on the ground line: not jumping, `gopherY = 85`. -/
def onGround (g : Game) : Prop := g.jumpFlg = false ∧ g.gopherY = 85

/-- The player is `k` ticks into a jump that started on the ground line: the
velocity has received the impulse and `k` increments of gravity, and the height
is the sum of the `k` velocities used so far, `85 + k (k - 35) / 4`. -/
def inJump (k : Nat) (g : Game) : Prop :=
  g.jumpFlg = true ∧ g.gy = -jumpingPower + (k : ℚ) * gravity ∧
    g.gopherY = 85 + (k : ℚ) * ((k : ℚ) - 35) / 4

/-- The ten ticks of the jump scenario, every draw 0: the key is pressed on the
first tick only. -/
def scenarioInputs : List (Bool × (Nat → Int)) :=
  (true, zeroDraws) :: List.replicate 9 (false, zeroDraws)

/-- A jumping state just above the ground line that is falling at 3 per tick (no
run from `NewGame` passes through it). -/
def fallingFast : Game :=
  { freshPlaying with jumpFlg := true, gopherY := 84, gy := 3 }

/-- The states the host frame loop produces from `NewGame()` when it alternates
`Update` and `Draw`: the state after each complete frame, with any input and any
random draws. -/
inductive HostReachable : Game → Prop
  | start : HostReachable NewGame
  | frame (key : Bool) (draws : Nat → Int) {g : Game} :
      HostReachable g → HostReachable (g.Update key draws).Draw

/-- A state in `modeGame` on the eve of a spawn tick (`ground.count = 59`) whose
pool holds a visible slot, a hidden slot and another visible slot. -/
def mixedPool : Game :=
  { freshPlaying with
    ebifrys := [{ count := 0, x := 100, y := 110, visible := true }, ebifry.zero,
      { count := 0, x := 500, y := 110, visible := true }]
    ground := { count := 59, x := 0, y := 80 } }

/-! ## Basic facts about `Update` -/

theorem Update_title (g : Game) (key : Bool) (draws : Nat → Int) (h : g.mode = modeTitle) :
    g.Update key draws = if key then { g with mode := modeGame } else g := by
  simp [Game.Update, h]

theorem Update_game (g : Game) (key : Bool) (draws : Nat → Int) (h : g.mode = modeGame) :
    g.Update key draws = g.tick key draws := by
  simp [Game.Update, h, modeGame, modeTitle]

theorem Update_gameover (g : Game) (key : Bool) (draws : Nat → Int) (h : g.mode = modeGameover) :
    g.Update key draws = if key then { g.init with mode := modeGame } else g := by
  simp [Game.Update, h, modeGame, modeTitle, modeGameover]

theorem tick_count (g : Game) (key : Bool) (draws : Nat → Int) :
    (g.tick key draws).count = g.count + 1 := by
  unfold Game.tick
  dsimp only
  split_ifs <;> rfl

theorem tick_score (g : Game) (key : Bool) (draws : Nat → Int) :
    (g.tick key draws).score = Int.tdiv (g.count + 1) 5 := by
  unfold Game.tick
  dsimp only
  split_ifs <;> rfl

theorem tick_mode (g : Game) (key : Bool) (draws : Nat → Int) :
    (g.tick key draws).mode = if (g.tick key draws).hit then modeGameover else g.mode := by
  unfold Game.tick
  dsimp only
  split_ifs <;> simp_all [Game.hit]

theorem tick_gopherY (g : Game) (key : Bool) (draws : Nat → Int) :
    (g.tick key draws).gopherY =
      if g.jumpFlg then g.gopherY + g.gy
      else if key then g.gopherY + -jumpingPower else g.gopherY := by
  unfold Game.tick
  dsimp only
  split_ifs <;> simp_all

theorem tick_gy (g : Game) (key : Bool) (draws : Nat → Int) :
    (g.tick key draws).gy =
      if g.jumpFlg then g.gy + gravity
      else if key then -jumpingPower + gravity else g.gy := by
  unfold Game.tick
  dsimp only
  split_ifs <;> simp_all

theorem tick_jumpFlg (g : Game) (key : Bool) (draws : Nat → Int) :
    (g.tick key draws).jumpFlg =
      if (g.tick key draws).gopherY ≥ ((groundY - gopherHeight : Int) : ℚ) then false
      else (g.jumpFlg || key) := by
  unfold Game.tick
  dsimp only
  split_ifs <;> simp_all

theorem hitLoop_eq_true (y : ℚ) (l : List ebifry) :
    hitLoop y l = true ↔
      (∃ t ∈ l, t.visible = true ∧ 2000 < t.x ∧ t.x < 2200) ∧ y * 4 = 340 := by
  induction l with
  | nil => simp [hitLoop]
  | cons t ts ih =>
    simp only [hitLoop, List.mem_cons, exists_eq_or_imp]
    by_cases hv : t.visible = true
    · by_cases hc : t.x > 2000 ∧ t.x < 2200 ∧ (340 : ℚ) = y * 4
      · rw [if_pos hv, if_pos hc]
        exact ⟨fun _ => ⟨Or.inl ⟨hv, hc.1, hc.2.1⟩, hc.2.2.symm⟩, fun _ => rfl⟩
      · rw [if_pos hv, if_neg hc, ih]
        constructor
        · rintro ⟨h1, h2⟩
          exact ⟨Or.inr h1, h2⟩
        · rintro ⟨h1 | h1, h2⟩
          · exact absurd ⟨h1.2.1, h1.2.2, h2.symm⟩ hc
          · exact ⟨h1, h2⟩
    · rw [if_neg hv, ih]
      constructor
      · rintro ⟨h1, h2⟩
        exact ⟨Or.inr h1, h2⟩
      · rintro ⟨h1 | h1, h2⟩
        · exact absurd h1.1 hv
        · exact ⟨h1, h2⟩

theorem hit_of_all_hidden (g : Game) (h : ∀ t ∈ g.ebifrys, t.visible = false) :
    g.hit = false := by
  cases hh : g.hit with
  | false => rfl
  | true =>
    obtain ⟨⟨t, ht, hv, _⟩, _⟩ := (hitLoop_eq_true _ _).1 hh
    rw [h t ht] at hv
    exact absurd hv (by decide)

/-! ## The obstacle loop -/

theorem tick_ebifrys (g : Game) (key : Bool) (draws : Nat → Int) :
    (g.tick key draws).ebifrys =
      (scanEbifrys (g.ground.count + 1) draws g.lastEbifryX 0 g.ebifrys).1 := by
  unfold Game.tick
  dsimp only
  split_ifs <;> simp_all

theorem tick_lastEbifryX (g : Game) (key : Bool) (draws : Nat → Int) :
    (g.tick key draws).lastEbifryX =
      (scanEbifrys (g.ground.count + 1) draws g.lastEbifryX 0 g.ebifrys).2.1 := by
  unfold Game.tick
  dsimp only
  split_ifs <;> simp_all

theorem tick_ground_count (g : Game) (key : Bool) (draws : Nat → Int) :
    (g.tick key draws).ground.count = g.ground.count + 1 := by
  unfold Game.tick ground.move
  dsimp only
  split_ifs <;> simp_all

theorem scan_length (gc : Int) (draws : Nat → Int) (last : Int) (l : List ebifry) :
    ∀ k : Nat, (scanEbifrys gc draws last k l).1.length = l.length := by
  induction l with
  | nil => intro k; rfl
  | cons t ts ih =>
    intro k
    unfold scanEbifrys
    split_ifs <;> simp [ih]

theorem zip_self_not_spawned (l : List ebifry) : (l.zip l).countP spawnedSlot = 0 := by
  induction l with
  | nil => rfl
  | cons t ts ih =>
    cases hv : t.visible <;> simp [List.countP_cons, spawnedSlot, ih, hv]

theorem scan_spawn_le_one (gc : Int) (draws : Nat → Int) (last : Int) (l : List ebifry) :
    ∀ k : Nat, (l.zip (scanEbifrys gc draws last k l).1).countP spawnedSlot ≤ 1 := by
  induction l with
  | nil => intro k; simp [scanEbifrys]
  | cons t ts ih =>
    intro k
    unfold scanEbifrys
    split_ifs with hv hg hd
    · simpa [List.countP_cons, spawnedSlot, hv] using ih k
    · simp [List.countP_cons, spawnedSlot, hv, zip_self_not_spawned, ebifry.show_]
    · simpa [List.countP_cons, spawnedSlot, hv] using ih (k + 1)
    · simpa [List.countP_cons, spawnedSlot, hv] using ih k

theorem scan_visible (gc : Int) (draws : Nat → Int) (last : Int) (k : Nat) (t : ebifry)
    (ts : List ebifry) (hv : t.visible = true) :
    scanEbifrys gc draws last k (t :: ts) =
      ((if (t.move speed).isOutOfScreen then (t.move speed).hide else t.move speed) ::
        (scanEbifrys gc draws last k ts).1,
        (scanEbifrys gc draws last k ts).2.1, (scanEbifrys gc draws last k ts).2.2) := by
  rw [scanEbifrys, if_pos hv]

theorem scan_spawn (gc : Int) (draws : Nat → Int) (last : Int) (k : Nat) (t : ebifry)
    (ts : List ebifry) (hv : t.visible = false)
    (hg : gc - last > minEbifryDist ∧ Int.tmod gc interval = 0) (hd : draws k = 0) :
    scanEbifrys gc draws last k (t :: ts) = (t.show_ :: ts, gc, k + 1) := by
  rw [scanEbifrys, if_neg (by simp [hv]), if_pos hg, if_pos hd]

theorem scan_miss (gc : Int) (draws : Nat → Int) (last : Int) (k : Nat) (t : ebifry)
    (ts : List ebifry) (hv : t.visible = false)
    (hg : gc - last > minEbifryDist ∧ Int.tmod gc interval = 0) (hd : draws k ≠ 0) :
    scanEbifrys gc draws last k (t :: ts) =
      (t :: (scanEbifrys gc draws last (k + 1) ts).1,
        (scanEbifrys gc draws last (k + 1) ts).2.1, (scanEbifrys gc draws last (k + 1) ts).2.2) := by
  rw [scanEbifrys, if_neg (by simp [hv]), if_pos hg, if_neg hd]

theorem scan_closed (gc : Int) (draws : Nat → Int) (last : Int) (k : Nat) (t : ebifry)
    (ts : List ebifry) (hv : t.visible = false)
    (hg : ¬ (gc - last > minEbifryDist ∧ Int.tmod gc interval = 0)) :
    scanEbifrys gc draws last k (t :: ts) =
      (t :: (scanEbifrys gc draws last k ts).1,
        (scanEbifrys gc draws last k ts).2.1, (scanEbifrys gc draws last k ts).2.2) := by
  rw [scanEbifrys, if_neg (by simp [hv]), if_neg hg]

theorem drawIndex_zero (l : List ebifry) : drawIndex l 0 = 0 := by
  simp [drawIndex]

theorem drawIndex_succ (s : ebifry) (ss : List ebifry) (j : Nat) :
    drawIndex (s :: ss) (j + 1) = drawIndex ss j + if s.visible then 0 else 1 := by
  cases hv : s.visible <;> simp [drawIndex, List.countP_cons, hv]

theorem scan_get (gc : Int) (draws : Nat → Int) (last : Int) (l : List ebifry) :
    ∀ (k i : Nat) (t t' : ebifry), l[i]? = some t →
      (scanEbifrys gc draws last k l).1[i]? = some t' →
      t' = t ∨
      (t.visible = true ∧
        t' = if (t.move speed).isOutOfScreen then (t.move speed).hide else t.move speed) ∨
      (t.visible = false ∧ t' = t.show_ ∧
        (gc - last > minEbifryDist ∧ Int.tmod gc interval = 0) ∧
        draws (k + drawIndex l i) = 0 ∧
        (scanEbifrys gc draws last k l).2.1 = gc) := by
  induction l with
  | nil => intro k i t t' h; simp at h
  | cons s ss ih =>
    intro k i t t' h h'
    by_cases hv : s.visible = true
    · rw [scan_visible gc draws last k s ss hv] at h' ⊢
      cases i with
      | zero =>
        simp only [List.getElem?_cons_zero, Option.some.injEq] at h h'
        subst h
        exact Or.inr (Or.inl ⟨hv, h'.symm⟩)
      | succ j =>
        simp only [List.getElem?_cons_succ] at h h'
        simpa [drawIndex_succ, hv] using ih k j t t' h h'
    · have hv' : s.visible = false := by simpa using hv
      by_cases hg : gc - last > minEbifryDist ∧ Int.tmod gc interval = 0
      · by_cases hd : draws k = 0
        · rw [scan_spawn gc draws last k s ss hv' hg hd] at h' ⊢
          cases i with
          | zero =>
            simp only [List.getElem?_cons_zero, Option.some.injEq] at h h'
            subst h
            exact Or.inr (Or.inr ⟨hv', h'.symm, hg, by simpa [drawIndex_zero] using hd, rfl⟩)
          | succ j =>
            simp only [List.getElem?_cons_succ] at h h'
            rw [h] at h'
            exact Or.inl (Option.some.inj h').symm
        · rw [scan_miss gc draws last k s ss hv' hg hd] at h' ⊢
          cases i with
          | zero =>
            simp only [List.getElem?_cons_zero, Option.some.injEq] at h h'
            subst h
            exact Or.inl h'.symm
          | succ j =>
            simp only [List.getElem?_cons_succ] at h h'
            have := ih (k + 1) j t t' h h'
            simpa [drawIndex_succ, hv', Nat.add_assoc, Nat.add_comm 1] using this
      · rw [scan_closed gc draws last k s ss hv' hg] at h' ⊢
        cases i with
        | zero =>
          simp only [List.getElem?_cons_zero, Option.some.injEq] at h h'
          subst h
          exact Or.inl h'.symm
        | succ j =>
          simp only [List.getElem?_cons_succ] at h h'
          rcases ih k j t t' h h' with h1 | h1 | h1
          · exact Or.inl h1
          · exact Or.inr (Or.inl h1)
          · exact absurd h1.2.2.1 hg

/-! ## Invariants of the reachable states -/

theorem scan_inScreen (gc : Int) (draws : Nat → Int) (last : Int) (l : List ebifry)
    (hl : ∀ t ∈ l, t.visible = true → t.x ≤ 3000) :
    ∀ (k : Nat), ∀ t ∈ (scanEbifrys gc draws last k l).1, t.visible = true → t.x ≤ 3000 := by
  intro k t' ht' hv'
  obtain ⟨i, hi⟩ := List.getElem?_of_mem ht'
  have hlen : i < l.length := by
    have := (List.getElem?_eq_some.1 hi).1
    rwa [scan_length] at this
  have ht : l[i]? = some l[i] := List.getElem?_eq_getElem hlen
  rcases scan_get gc draws last l k i l[i] t' ht hi with h | ⟨_, h⟩ | ⟨_, h, _⟩
  · rw [h] at hv' ⊢
    exact hl _ (List.getElem_mem hlen) hv'
  · by_cases ho : (l[i].move speed).isOutOfScreen = true
    · rw [if_pos ho] at h
      rw [h] at hv'
      simp [ebifry.hide] at hv'
    · rw [if_neg ho] at h
      rw [h]
      simpa [ebifry.isOutOfScreen] using ho
  · rw [h]
    simp [ebifry.show_]

theorem init_ebifrys (g : Game) :
    g.init.ebifrys = [ebifry.zero, ebifry.zero, ebifry.zero] := rfl

theorem reachable_inScreen (g : Game) (h : Reachable g) :
    ∀ t ∈ g.ebifrys, t.visible = true → t.x ≤ 3000 := by
  induction h with
  | newGame =>
    intro t ht hv
    simp [NewGame, init_ebifrys, ebifry.zero] at ht
    simp [ht] at hv
  | @update key draws g _ ih =>
    unfold Game.Update
    split_ifs with h1 h2 h3 h4 h5
    · exact ih
    · exact ih
    · rw [tick_ebifrys]
      exact scan_inScreen _ _ _ _ ih _
    · intro t ht hv
      simp [init_ebifrys, ebifry.zero] at ht
      simp [ht] at hv
    · exact ih
    · exact ih
  | @draw g _ ih =>
    intro t ht hv
    have he : g.Draw.ebifrys =
        g.ebifrys.map (fun t => if t.visible then { t with y := 900 } else t) := by
      unfold Game.Draw Game.drawGopher Game.drawEbifrys
      dsimp only
      split_ifs <;> rfl
    rw [he, List.mem_map] at ht
    obtain ⟨s, hs, rfl⟩ := ht
    by_cases hsv : s.visible = true
    · simp only [hsv, if_true] at hv ⊢
      exact ih s hs hsv
    · simp only [hsv] at hv ⊢
      exact ih s hs hv

theorem reachable_gameover_landed (g : Game) (h : Reachable g) :
    g.mode = modeGameover → g.jumpFlg = false := by
  induction h with
  | newGame => intro h; exact absurd h (by decide)
  | @update key draws g _ ih =>
    intro hm
    unfold Game.Update at hm ⊢
    split_ifs at hm ⊢ with h1 h2 h3 h4 h5
    · exact absurd (show modeGame = modeGameover from hm) (by decide)
    · exact ih hm
    · rw [tick_mode] at hm
      have hh : (g.tick key draws).hit = true := by
        by_contra hc
        rw [if_neg hc, h3] at hm
        exact absurd hm (by decide)
      have hy := ((hitLoop_eq_true _ _).1 hh).2
      rw [tick_jumpFlg, if_pos]
      have : (g.tick key draws).gopherY = 85 := by linarith
      rw [this]
      norm_num [groundY, gopherHeight]
    · exact absurd (show modeGame = modeGameover from hm) (by decide)
    · exact ih hm
    · exact ih hm
  | @draw g _ ih =>
    intro hm
    have h1 : g.Draw.mode = g.mode := by
      unfold Game.Draw Game.drawGopher Game.drawEbifrys
      dsimp only
      split_ifs <;> rfl
    have h2 : g.Draw.jumpFlg = g.jumpFlg := by
      unfold Game.Draw Game.drawGopher Game.drawEbifrys
      dsimp only
      split_ifs <;> rfl
    rw [h2]
    exact ih (h1 ▸ hm)

theorem reachable_runUpdates (inputs : List (Bool × (Nat → Int))) :
    ∀ g : Game, Reachable g → Reachable (runUpdates inputs g) := by
  induction inputs with
  | nil => intro g h; exact h
  | cons i is ih => intro g h; exact ih _ (Reachable.update i.1 i.2 h)

theorem reachable_freshPlaying : Reachable freshPlaying :=
  Reachable.update true zeroDraws Reachable.newGame

/-! ## The ticks before the first spawn -/

theorem quiet_step (g : Game) (key : Bool) (draws : Nat → Int) (n : Nat)
    (hm : g.mode = modeGame) (hc : g.ground.count = (n : Int)) (hl : g.lastEbifryX = 0)
    (he : g.ebifrys = [ebifry.zero, ebifry.zero, ebifry.zero]) (hn : n + 1 < 60) :
    (g.Update key draws).mode = modeGame ∧
    (g.Update key draws).ground.count = ((n + 1 : Nat) : Int) ∧
    (g.Update key draws).lastEbifryX = 0 ∧
    (g.Update key draws).ebifrys = [ebifry.zero, ebifry.zero, ebifry.zero] := by
  have hg : ¬ ((g.ground.count + 1) - g.lastEbifryX > minEbifryDist ∧
      Int.tmod (g.ground.count + 1) interval = 0) := by
    rw [hc, hl, Int.tmod_eq_emod (by omega) (by decide)]
    unfold minEbifryDist interval
    omega
  have hs : scanEbifrys (g.ground.count + 1) draws g.lastEbifryX 0 g.ebifrys =
      (g.ebifrys, g.lastEbifryX, 0) := by
    rw [he]
    simp [scanEbifrys, hg, ebifry.zero]
  have he' : (g.tick key draws).ebifrys = [ebifry.zero, ebifry.zero, ebifry.zero] := by
    rw [tick_ebifrys, hs, he]
  rw [Update_game g key draws hm]
  refine ⟨?_, ?_, ?_, he'⟩
  · rw [tick_mode, hit_of_all_hidden _ (by rw [he']; decide)]
    simpa using hm
  · rw [tick_ground_count, hc]
    push_cast
    rfl
  · rw [tick_lastEbifryX, hs, hl]

theorem spawn_step (g : Game) (key : Bool)
    (hm : g.mode = modeGame) (hc : g.ground.count = 59) (hl : g.lastEbifryX = 0)
    (he : g.ebifrys = [ebifry.zero, ebifry.zero, ebifry.zero]) :
    (g.Update key zeroDraws).ebifrys = [ebifry.zero.show_, ebifry.zero, ebifry.zero] := by
  rw [Update_game g key zeroDraws hm, tick_ebifrys, hc, hl, he,
    scan_spawn (59 + 1) zeroDraws 0 0 ebifry.zero [ebifry.zero, ebifry.zero] rfl (by decide) rfl]

theorem quiet_run (keys : List Bool) :
    ∀ (g : Game) (n : Nat), g.mode = modeGame → g.ground.count = (n : Int) →
      g.lastEbifryX = 0 → g.ebifrys = [ebifry.zero, ebifry.zero, ebifry.zero] →
      n + keys.length < 60 →
      (playKeys keys g).mode = modeGame ∧
      (playKeys keys g).ground.count = ((n + keys.length : Nat) : Int) ∧
      (playKeys keys g).lastEbifryX = 0 ∧
      (playKeys keys g).ebifrys = [ebifry.zero, ebifry.zero, ebifry.zero] := by
  induction keys with
  | nil => intro g n hm hc hl he _; exact ⟨hm, hc, hl, he⟩
  | cons b bs ih =>
    intro g n hm hc hl he hn
    simp only [List.length_cons] at hn
    obtain ⟨h1, h2, h3, h4⟩ := quiet_step g b zeroDraws n hm hc hl he (by omega)
    have := ih (g.Update b zeroDraws) (n + 1) h1 h2 h3 h4 (by omega)
    simpa [playKeys, runUpdates, Nat.add_assoc, Nat.add_comm 1] using this

theorem spawn_run (keys : List Bool) :
    ∀ (g : Game) (n : Nat), g.mode = modeGame → g.ground.count = (n : Int) →
      g.lastEbifryX = 0 → g.ebifrys = [ebifry.zero, ebifry.zero, ebifry.zero] →
      n < 60 → n + keys.length = 60 →
      (playKeys keys g).ebifrys = [ebifry.zero.show_, ebifry.zero, ebifry.zero] := by
  induction keys with
  | nil => intro g n _ _ _ _ h1 h2; simp at h2; omega
  | cons b bs ih =>
    intro g n hm hc hl he hn hlen
    simp only [List.length_cons] at hlen
    by_cases h59 : n = 59
    · subst h59
      have hbs : bs = [] := List.length_eq_zero.1 (by omega)
      subst hbs
      exact spawn_step g b hm (by simpa using hc) hl he
    · obtain ⟨h1, h2, h3, h4⟩ := quiet_step g b zeroDraws n hm hc hl he (by omega)
      exact ih (g.Update b zeroDraws) (n + 1) h1 h2 h3 h4 (by omega) (by omega)

/-! ## High score -/

theorem tick_hiscore (g : Game) (key : Bool) (draws : Nat → Int) :
    (g.tick key draws).hiscore = g.hiscore := by
  unfold Game.tick
  dsimp only
  split_ifs <;> rfl

/-! ## The jump arc -/

theorem arc_below (k : Nat) (h1 : 1 ≤ k) (h2 : k ≤ 34) :
    (85 : ℚ) + (k : ℚ) * ((k : ℚ) - 35) / 4 < 85 := by
  have hk1 : (0 : ℚ) < (k : ℚ) := by exact_mod_cast h1
  have hk2 : (k : ℚ) - 35 < 0 := by
    have : (k : ℚ) ≤ 34 := by exact_mod_cast h2
    linarith
  have := mul_neg_of_pos_of_neg hk1 hk2
  linarith

theorem inJump_below (k : Nat) (g : Game) (h : inJump k g) (h1 : 1 ≤ k) (h2 : k ≤ 34) :
    g.gopherY < 85 := by
  rw [h.2.2]
  exact arc_below k h1 h2

theorem tick_mode_of_off_ground (g : Game) (key : Bool) (draws : Nat → Int)
    (h : (g.tick key draws).gopherY ≠ 85) : (g.tick key draws).mode = g.mode := by
  rw [tick_mode, if_neg]
  intro hh
  have := ((hitLoop_eq_true _ _).1 hh).2
  apply h
  linarith

theorem tick_launch (g : Game) (draws : Nat → Int) (h : onGround g) :
    inJump 1 (g.tick true draws) := by
  have hY : (g.tick true draws).gopherY = 85 + ((1 : Nat) : ℚ) * (((1 : Nat) : ℚ) - 35) / 4 := by
    rw [tick_gopherY, h.1, h.2]
    norm_num [jumpingPower]
  refine ⟨?_, ?_, hY⟩
  · rw [tick_jumpFlg, hY]
    norm_num [groundY, gopherHeight]
  · rw [tick_gy, h.1]
    norm_num [jumpingPower, gravity]

theorem tick_air (g : Game) (key : Bool) (draws : Nat → Int) (k : Nat)
    (h : inJump k g) (h2 : k + 1 ≤ 34) : inJump (k + 1) (g.tick key draws) := by
  obtain ⟨hj, hv, hy⟩ := h
  have hY : (g.tick key draws).gopherY =
      85 + ((k + 1 : Nat) : ℚ) * (((k + 1 : Nat) : ℚ) - 35) / 4 := by
    rw [tick_gopherY, hj, hv, hy]
    simp only [if_true, jumpingPower, gravity]
    push_cast
    ring
  refine ⟨?_, ?_, hY⟩
  · rw [tick_jumpFlg, if_neg, hj]
    · rfl
    · rw [hY]
      have := arc_below (k + 1) (by omega) h2
      have hg : ((groundY - gopherHeight : Int) : ℚ) = 85 := by norm_num [groundY, gopherHeight]
      rw [hg]
      exact not_le.2 this
  · rw [tick_gy, hj, hv]
    simp only [if_true]
    push_cast
    ring

theorem tick_land (g : Game) (key : Bool) (draws : Nat → Int)
    (h : inJump 34 g) : onGround (g.tick key draws) ∧ (g.tick key draws).gy = 9 := by
  obtain ⟨hj, hv, hy⟩ := h
  have hY : (g.tick key draws).gopherY = 85 := by
    rw [tick_gopherY, hj, hv, hy]
    norm_num [jumpingPower, gravity]
  refine ⟨⟨?_, hY⟩, ?_⟩
  · rw [tick_jumpFlg, hY]
    norm_num [groundY, gopherHeight]
  · rw [tick_gy, hj, hv]
    norm_num [jumpingPower, gravity]

theorem tick_rest (g : Game) (draws : Nat → Int) (h : onGround g) :
    onGround (g.tick false draws) := by
  have hY : (g.tick false draws).gopherY = 85 := by
    rw [tick_gopherY, h.1, h.2]
    simp
  refine ⟨?_, hY⟩
  rw [tick_jumpFlg, hY]
  norm_num [groundY, gopherHeight]

theorem Draw_player (g : Game) :
    g.Draw.mode = g.mode ∧ g.Draw.jumpFlg = g.jumpFlg ∧ g.Draw.gy = g.gy ∧
    g.Draw.gopherY = g.gopherY := by
  unfold Game.Draw Game.drawGopher Game.drawEbifrys
  dsimp only
  split_ifs <;> exact ⟨rfl, rfl, rfl, rfl⟩

theorem jump_run (inputs : List (Bool × (Nat → Int))) :
    ∀ (g : Game) (k : Nat), g.mode = modeGame → inJump k g → 1 ≤ k →
      k + inputs.length ≤ 34 →
      (runUpdates inputs g).mode = modeGame ∧ inJump (k + inputs.length) (runUpdates inputs g) ∧
      (runUpdates inputs g).count = g.count + (inputs.length : Int) ∧
      (g.score = Int.tdiv g.count 5 →
        (runUpdates inputs g).score = Int.tdiv (runUpdates inputs g).count 5) := by
  induction inputs with
  | nil => intro g k hm hj _ _; exact ⟨hm, hj, by simp [runUpdates], fun h => h⟩
  | cons i is ih =>
    intro g k hm hj h1 hlen
    simp only [List.length_cons] at hlen
    have hstep : g.Update i.1 i.2 = g.tick i.1 i.2 := Update_game g i.1 i.2 hm
    have hj' : inJump (k + 1) (g.tick i.1 i.2) := tick_air g i.1 i.2 k hj (by omega)
    have hm' : (g.tick i.1 i.2).mode = modeGame := by
      rw [tick_mode_of_off_ground, hm]
      exact ne_of_lt (inJump_below _ _ hj' (by omega) (by omega))
    obtain ⟨r1, r2, r3, r4⟩ := ih (g.tick i.1 i.2) (k + 1) hm' hj' (by omega) (by omega)
    simp only [runUpdates, hstep, List.length_cons]
    refine ⟨r1, ?_, ?_, fun _ => r4 ?_⟩
    · have e : k + (is.length + 1) = k + 1 + is.length := by omega
      rw [e]
      exact r2
    · rw [r3, tick_count]
      push_cast
      ring
    · rw [tick_score, tick_count]

theorem jump_land (inputs : List (Bool × (Nat → Int))) :
    ∀ (g : Game) (k : Nat), g.mode = modeGame → inJump k g → 1 ≤ k → k ≤ 34 →
      k + inputs.length = 35 →
      onGround (runUpdates inputs g) ∧ (runUpdates inputs g).gy = 9 := by
  induction inputs with
  | nil =>
    intro g k _ _ _ h34 hlen
    simp only [List.length_nil, Nat.add_zero] at hlen
    omega
  | cons i is ih =>
    intro g k hm hj h1 _ hlen
    simp only [List.length_cons] at hlen
    have hstep : g.Update i.1 i.2 = g.tick i.1 i.2 := Update_game g i.1 i.2 hm
    by_cases h34 : k = 34
    · subst h34
      have his : is = [] := List.length_eq_zero.1 (by omega)
      subst his
      simp only [runUpdates, hstep]
      exact tick_land g i.1 i.2 hj
    · have hj' : inJump (k + 1) (g.tick i.1 i.2) := tick_air g i.1 i.2 k hj (by omega)
      have hm' : (g.tick i.1 i.2).mode = modeGame := by
        rw [tick_mode_of_off_ground, hm]
        exact ne_of_lt (inJump_below _ _ hj' (by omega) (by omega))
      simp only [runUpdates, hstep]
      exact ih (g.tick i.1 i.2) (k + 1) hm' hj' (by omega) (by omega) (by omega)

theorem reachable_on_arc (g : Game) (h : Reachable g) :
    onGround g ∨ (g.mode ≠ modeGameover ∧ ∃ k : Nat, 1 ≤ k ∧ k ≤ 34 ∧ inJump k g) := by
  induction h with
  | newGame => left; exact ⟨rfl, by norm_num [NewGame, Game.init, groundY, gopherHeight]⟩
  | @update key draws g _ ih =>
    unfold Game.Update
    split_ifs with h1 h2 h3 h4 h5
    · rcases ih with h | ⟨_, k, hk1, hk2, hj⟩
      · exact Or.inl h
      · exact Or.inr ⟨show modeGame ≠ modeGameover by decide, k, hk1, hk2, hj⟩
    · exact ih
    · rcases ih with h | ⟨_, k, hk1, hk2, hj⟩
      · cases key with
        | false => exact Or.inl (tick_rest g draws h)
        | true =>
          have hj' := tick_launch g draws h
          refine Or.inr ⟨?_, 1, le_refl 1, by omega, hj'⟩
          rw [tick_mode_of_off_ground, h3]
          · decide
          · exact ne_of_lt (inJump_below _ _ hj' (le_refl 1) (by omega))
      · by_cases h34 : k = 34
        · subst h34
          exact Or.inl (tick_land g key draws hj).1
        · have hj' := tick_air g key draws k hj (by omega)
          refine Or.inr ⟨?_, k + 1, by omega, by omega, hj'⟩
          rw [tick_mode_of_off_ground, h3]
          · decide
          · exact ne_of_lt (inJump_below _ _ hj' (by omega) (by omega))
    · rcases ih with h | ⟨hne, _⟩
      · left
        exact ⟨h.1, by norm_num [Game.init, groundY, gopherHeight]⟩
      · exact absurd h4 hne
    · exact ih
    · exact ih
  | @draw g _ ih =>
    obtain ⟨d1, d2, d3, d4⟩ := Draw_player g
    unfold onGround inJump
    rw [d1, d2, d3, d4]
    exact ih

theorem jump_from_ground (g : Game) (d : Nat → Int) (rest : List (Bool × (Nat → Int)))
    (hm : g.mode = modeGame) (hg : onGround g) (hl : rest.length ≤ 33) :
    (runUpdates ((true, d) :: rest) g).mode = modeGame ∧
    inJump (1 + rest.length) (runUpdates ((true, d) :: rest) g) ∧
    (runUpdates ((true, d) :: rest) g).count = g.count + 1 + (rest.length : Int) ∧
    (runUpdates ((true, d) :: rest) g).score =
      Int.tdiv (runUpdates ((true, d) :: rest) g).count 5 := by
  have hstep : g.Update true d = g.tick true d := Update_game g true d hm
  have hj' : inJump 1 (g.tick true d) := tick_launch g d hg
  have hm' : (g.tick true d).mode = modeGame := by
    rw [tick_mode_of_off_ground, hm]
    exact ne_of_lt (inJump_below _ _ hj' (le_refl 1) (by omega))
  obtain ⟨r1, r2, r3, r4⟩ := jump_run rest (g.tick true d) 1 hm' hj' (le_refl 1) (by omega)
  simp only [runUpdates, hstep]
  refine ⟨r1, r2, ?_, r4 ?_⟩
  · rw [r3, tick_count]
  · rw [tick_score, tick_count]

theorem scenario_height (inputs : List (Bool × (Nat → Int)))
    (hk : inputs.map Prod.fst = true :: List.replicate 9 false) (n : Nat) (hn : n ≤ 10) :
    (runUpdates (inputs.take n) freshPlaying).gopherY = 85 + (n : ℚ) * ((n : ℚ) - 35) / 4 ∧
    (1 ≤ n →
      (runUpdates (inputs.take n) freshPlaying).jumpFlg = true ∧
      (runUpdates (inputs.take n) freshPlaying).count = (n : Int) ∧
      (runUpdates (inputs.take n) freshPlaying).score =
        Int.tdiv (runUpdates (inputs.take n) freshPlaying).count 5) := by
  have hfresh : freshPlaying.gopherY = 85 := by decide!
  cases n with
  | zero =>
    refine ⟨?_, fun h => absurd h (by decide)⟩
    simp [runUpdates, hfresh]
  | succ m =>
    cases inputs with
    | nil => simp at hk
    | cons i rest =>
      obtain ⟨b, d⟩ := i
      simp only [List.map_cons, List.cons.injEq] at hk
      obtain ⟨hb, hrest⟩ := hk
      subst hb
      have hlen : rest.length = 9 := by
        have := congrArg List.length hrest
        simpa using this
      have htake : (rest.take m).length = m := by
        rw [List.length_take, hlen]
        omega
      obtain ⟨_, r2, r3, r4⟩ := jump_from_ground freshPlaying d (rest.take m) (by decide)
        ⟨by decide, hfresh⟩ (by omega)
      rw [htake] at r2 r3
      rw [List.take_succ_cons]
      have e : 1 + m = m + 1 := by omega
      rw [e] at r2
      refine ⟨r2.2.2, fun _ => ⟨r2.1, ?_, r4⟩⟩
      rw [r3]
      have : freshPlaying.count = 0 := by decide
      rw [this]
      push_cast
      ring

/-! ## The host frame loop -/

theorem Draw_count (g : Game) :
    g.Draw.count = if 19 ≤ Int.tmod (Int.tdiv g.count 5) 27 then 0 else g.count := by
  unfold Game.Draw Game.drawGopher Game.drawEbifrys gopherFrameOX gopherFrameWidth
    gopherFrameCount
  dsimp only
  by_cases h : 19 ≤ Int.tmod (Int.tdiv g.count 5) 27
  · rw [if_pos (by omega), if_pos h]
  · rw [if_neg (by omega), if_neg h]

theorem Draw_scores (g : Game) : g.Draw.score = g.score ∧ g.Draw.hiscore = g.hiscore := by
  unfold Game.Draw Game.drawGopher Game.drawEbifrys
  dsimp only
  split_ifs <;> exact ⟨rfl, rfl⟩

theorem Update_bounds (g : Game) (key : Bool) (draws : Nat → Int)
    (h : (0 ≤ g.count ∧ g.count ≤ 94) ∧ g.score ≤ 19 ∧ g.hiscore ≤ 19) :
    (0 ≤ (g.Update key draws).count ∧ (g.Update key draws).count ≤ 95) ∧
    (g.Update key draws).score ≤ 19 ∧ (g.Update key draws).hiscore ≤ 19 := by
  obtain ⟨⟨h1, h2⟩, h3, h4⟩ := h
  unfold Game.Update
  split_ifs with c1 c2 c3 c4 c5
  · exact ⟨⟨h1, show g.count ≤ 95 by omega⟩, h3, h4⟩
  · exact ⟨⟨h1, by omega⟩, h3, h4⟩
  · rw [tick_count, tick_score, tick_hiscore, Int.tdiv_eq_ediv (by omega) (by decide)]
    exact ⟨⟨by omega, by omega⟩, by omega, h4⟩
  · exact ⟨⟨le_refl 0, show (0 : Int) ≤ 95 by decide⟩, show (0 : Int) ≤ 19 by decide, h3⟩
  · exact ⟨⟨h1, by omega⟩, h3, h4⟩
  · exact ⟨⟨h1, by omega⟩, h3, h4⟩

theorem Draw_bounds (g : Game)
    (h : (0 ≤ g.count ∧ g.count ≤ 95) ∧ g.score ≤ 19 ∧ g.hiscore ≤ 19) :
    (0 ≤ g.Draw.count ∧ g.Draw.count ≤ 94) ∧ g.Draw.score ≤ 19 ∧ g.Draw.hiscore ≤ 19 := by
  obtain ⟨⟨h1, h2⟩, h3, h4⟩ := h
  rw [Draw_count, (Draw_scores g).1, (Draw_scores g).2,
    Int.tdiv_eq_ediv h1 (by decide), Int.tmod_eq_emod (by omega) (by decide)]
  refine ⟨?_, h3, h4⟩
  split_ifs with c
  · exact ⟨le_refl 0, by decide⟩
  · exact ⟨h1, by omega⟩

theorem host_bounds (g : Game) (h : HostReachable g) :
    (0 ≤ g.count ∧ g.count ≤ 94) ∧ g.score ≤ 19 ∧ g.hiscore ≤ 19 := by
  induction h with
  | start => decide
  | @frame key draws g _ ih => exact Draw_bounds _ (Update_bounds g key draws ih)

/-! ## Slots around a spawn -/

theorem advance_x (t : ebifry) :
    (if (t.move speed).isOutOfScreen then (t.move speed).hide else t.move speed).x =
      t.x + speed := by
  split_ifs <;> rfl

theorem scan_after_spawn (gc : Int) (draws : Nat → Int) (last : Int) (l : List ebifry) :
    ∀ (k i : Nat) (t t' : ebifry), l[i]? = some t →
      (scanEbifrys gc draws last k l).1[i]? = some t' →
      t.visible = false → t'.visible = true →
      ∀ j, i < j → (scanEbifrys gc draws last k l).1[j]? = l[j]? := by
  induction l with
  | nil => intro k i t t' h; simp at h
  | cons s ss ih =>
    intro k i t t' h h' hh hv j hij
    obtain ⟨j', rfl⟩ : ∃ j', j = j' + 1 := ⟨j - 1, by omega⟩
    by_cases hs : s.visible = true
    · rw [scan_visible gc draws last k s ss hs] at h' ⊢
      cases i with
      | zero =>
        simp only [List.getElem?_cons_zero, Option.some.injEq] at h
        rw [← h, hs] at hh
        exact absurd hh (by decide)
      | succ i' =>
        simp only [List.getElem?_cons_succ] at h h' ⊢
        exact ih k i' t t' h h' hh hv j' (by omega)
    · have hs' : s.visible = false := by simpa using hs
      by_cases hg : gc - last > minEbifryDist ∧ Int.tmod gc interval = 0
      · by_cases hd : draws k = 0
        · rw [scan_spawn gc draws last k s ss hs' hg hd]
          simp only [List.getElem?_cons_succ]
        · rw [scan_miss gc draws last k s ss hs' hg hd] at h' ⊢
          cases i with
          | zero =>
            simp only [List.getElem?_cons_zero, Option.some.injEq] at h h'
            rw [← h', hs'] at hv
            exact absurd hv (by decide)
          | succ i' =>
            simp only [List.getElem?_cons_succ] at h h' ⊢
            exact ih (k + 1) i' t t' h h' hh hv j' (by omega)
      · rw [scan_closed gc draws last k s ss hs' hg] at h' ⊢
        cases i with
        | zero =>
          simp only [List.getElem?_cons_zero, Option.some.injEq] at h h'
          rw [← h', hs'] at hv
          exact absurd hv (by decide)
        | succ i' =>
          simp only [List.getElem?_cons_succ] at h h' ⊢
          exact ih k i' t t' h h' hh hv j' (by omega)

theorem scan_before_spawn (gc : Int) (draws : Nat → Int) (last : Int) (l : List ebifry) :
    ∀ (k i : Nat) (t t' : ebifry), l[i]? = some t →
      (scanEbifrys gc draws last k l).1[i]? = some t' →
      t.visible = false → t'.visible = true →
      ∀ (j : Nat) (s s' : ebifry), j < i → l[j]? = some s →
        (scanEbifrys gc draws last k l).1[j]? = some s' → s.visible = true →
        s'.x = s.x + speed := by
  induction l with
  | nil => intro k i t t' h; simp at h
  | cons u us ih =>
    intro k i t t' h h' hh hv j s s' hji hs hs' hsv
    obtain ⟨i', rfl⟩ : ∃ i', i = i' + 1 := ⟨i - 1, by omega⟩
    simp only [List.getElem?_cons_succ] at h
    by_cases hu : u.visible = true
    · rw [scan_visible gc draws last k u us hu] at h' hs'
      simp only [List.getElem?_cons_succ] at h'
      cases j with
      | zero =>
        simp only [List.getElem?_cons_zero, Option.some.injEq] at hs hs'
        rw [← hs', ← hs]
        exact advance_x u
      | succ j' =>
        simp only [List.getElem?_cons_succ] at hs hs'
        exact ih k i' t t' h h' hh hv j' s s' (by omega) hs hs' hsv
    · have hu' : u.visible = false := by simpa using hu
      cases j with
      | zero =>
        simp only [List.getElem?_cons_zero, Option.some.injEq] at hs
        rw [← hs, hu'] at hsv
        exact absurd hsv (by decide)
      | succ j' =>
        simp only [List.getElem?_cons_succ] at hs
        by_cases hg : gc - last > minEbifryDist ∧ Int.tmod gc interval = 0
        · by_cases hd : draws k = 0
          · rw [scan_spawn gc draws last k u us hu' hg hd] at h'
            simp only [List.getElem?_cons_succ] at h'
            rw [h] at h'
            rw [← Option.some.inj h', hh] at hv
            exact absurd hv (by decide)
          · rw [scan_miss gc draws last k u us hu' hg hd] at h' hs'
            simp only [List.getElem?_cons_succ] at h' hs'
            exact ih (k + 1) i' t t' h h' hh hv j' s s' (by omega) hs hs' hsv
        · rw [scan_closed gc draws last k u us hu' hg] at h' hs'
          simp only [List.getElem?_cons_succ] at h' hs'
          exact ih k i' t t' h h' hh hv j' s s' (by omega) hs hs' hsv

theorem scan_no_spawn (gc : Int) (draws : Nat → Int) (last : Int) (l : List ebifry) :
    ∀ (k : Nat),
      (∀ (i : Nat) (t t' : ebifry), l[i]? = some t →
        (scanEbifrys gc draws last k l).1[i]? = some t' →
        t.visible = false → t'.visible = false) →
      ∀ (j : Nat) (s s' : ebifry), l[j]? = some s →
        (scanEbifrys gc draws last k l).1[j]? = some s' → s.visible = true →
        s'.x = s.x + speed := by
  induction l with
  | nil => intro k _ j s s' h; simp at h
  | cons u us ih =>
    intro k hno j s s' hs hs' hsv
    by_cases hu : u.visible = true
    · rw [scan_visible gc draws last k u us hu] at hs' hno
      cases j with
      | zero =>
        simp only [List.getElem?_cons_zero, Option.some.injEq] at hs hs'
        rw [← hs', ← hs]
        exact advance_x u
      | succ j' =>
        simp only [List.getElem?_cons_succ] at hs hs'
        exact ih k (fun i t t' h h' =>
          hno (i + 1) t t' (by simpa using h) (by simpa using h')) j' s s' hs hs' hsv
    · have hu' : u.visible = false := by simpa using hu
      by_cases hg : gc - last > minEbifryDist ∧ Int.tmod gc interval = 0
      · by_cases hd : draws k = 0
        · rw [scan_spawn gc draws last k u us hu' hg hd] at hno
          have := hno 0 u u.show_ (by simp) (by simp) hu'
          exact absurd this (by simp [ebifry.show_])
        · rw [scan_miss gc draws last k u us hu' hg hd] at hs' hno
          cases j with
          | zero =>
            simp only [List.getElem?_cons_zero, Option.some.injEq] at hs
            rw [← hs, hu'] at hsv
            exact absurd hsv (by decide)
          | succ j' =>
            simp only [List.getElem?_cons_succ] at hs hs'
            exact ih (k + 1) (fun i t t' h h' =>
          hno (i + 1) t t' (by simpa using h) (by simpa using h')) j' s s' hs hs' hsv
      · rw [scan_closed gc draws last k u us hu' hg] at hs' hno
        cases j with
        | zero =>
          simp only [List.getElem?_cons_zero, Option.some.injEq] at hs
          rw [← hs, hu'] at hsv
          exact absurd hsv (by decide)
        | succ j' =>
          simp only [List.getElem?_cons_succ] at hs hs'
          exact ih k (fun i t t' h h' =>
          hno (i + 1) t t' (by simpa using h) (by simpa using h')) j' s s' hs hs' hsv

/-! ## Claims -/

/-- C1: in `modeGame`, whatever the input, one `Update` adds 1 to `count` and sets
`score` to the new `count` divided by 5, with Go's truncating integer division
(which is the usual quotient when the counter is not negative). -/
theorem C1_count_and_score (g : Game) (key : Bool) (draws : Nat → Int)
    (hm : g.mode = modeGame) :
    (g.Update key draws).count = g.count + 1 ∧
    (g.Update key draws).score = Int.tdiv (g.Update key draws).count 5 ∧
    (0 ≤ (g.Update key draws).count →
      (g.Update key draws).score = (g.Update key draws).count / 5) := by
  rw [Update_game g key draws hm, tick_count, tick_score]
  refine ⟨rfl, rfl, fun h => ?_⟩
  exact Int.tdiv_eq_ediv h (by decide)

theorem C1_count_and_score_witness :
    freshPlaying.mode = modeGame ∧
    (freshPlaying.Update false zeroDraws).count = freshPlaying.count + 1 :=
  ⟨by decide, (C1_count_and_score freshPlaying false zeroDraws (by decide)).1⟩

/-- C2: the mode transition table of `Update`.  From `modeTitle` the mode becomes
`modeGame` when the key is pressed and stays otherwise; from `modeGame` it becomes
`modeGameover` exactly when `hit()` holds on the state produced by the tick and
stays `modeGame` otherwise; from `modeGameover` it becomes `modeGame` when the key
is pressed and stays otherwise. -/
theorem C2_mode_transitions (g : Game) (key : Bool) (draws : Nat → Int) :
    (g.mode = modeTitle →
      (g.Update key draws).mode = if key then modeGame else modeTitle) ∧
    (g.mode = modeGame →
      ((g.Update key draws).mode = modeGameover ↔ (g.Update key draws).hit = true) ∧
      ((g.Update key draws).hit = false → (g.Update key draws).mode = modeGame)) ∧
    (g.mode = modeGameover →
      (g.Update key draws).mode = if key then modeGame else modeGameover) := by
  refine ⟨fun h => ?_, fun h => ?_, fun h => ?_⟩
  · rw [Update_title g key draws h]
    cases key <;> simp [h]
  · rw [Update_game g key draws h, tick_mode, h]
    cases (g.tick key draws).hit <;> simp [modeGame, modeGameover]
  · rw [Update_gameover g key draws h]
    cases key <;> simp [h]

theorem C2_mode_transitions_witness :
    NewGame.mode = modeTitle ∧ (NewGame.Update true zeroDraws).mode = modeGame :=
  ⟨by decide, by simpa using (C2_mode_transitions NewGame true zeroDraws).1 (by decide)⟩

/-- C3: `hit()` returns true exactly when some obstacle slot is visible with
`2000 < x < 2200` and `gopherY * 4 == 340`; that test on `gopherY` says
`gopherY = groundY - gopherHeight = 85`; and when every slot is hidden `hit()`
is false. -/
theorem C3_hit_iff (g : Game) :
    (g.hit = true ↔
      (∃ t ∈ g.ebifrys, t.visible = true ∧ 2000 < t.x ∧ t.x < 2200) ∧ g.gopherY * 4 = 340) ∧
    (g.gopherY * 4 = 340 ↔ g.gopherY = ((groundY - gopherHeight : Int) : ℚ)) ∧
    (g.gopherY * 4 = 340 ↔ g.gopherY = 85) ∧
    ((∀ t ∈ g.ebifrys, t.visible = false) → g.hit = false) := by
  have hy : g.gopherY * 4 = 340 ↔ g.gopherY = 85 := by
    constructor <;> intro h <;> linarith
  refine ⟨hitLoop_eq_true _ _, ?_, hy, fun hall => ?_⟩
  · rw [hy]
    norm_num [groundY, gopherHeight]
  · exact hit_of_all_hidden g hall

theorem C3_hit_iff_witness :
    (∀ t ∈ freshPlaying.ebifrys, t.visible = false) ∧ freshPlaying.hit = false :=
  ⟨by decide, (C3_hit_iff freshPlaying).2.2.2 (by decide)⟩

/-- C4, as the claim states it, fails on a fresh game on the ground: after the
`Update` with the key pressed the velocity is `-8`, not `-8.5`. -/
theorem C4_counterexample :
    freshPlaying.mode = modeGame ∧ freshPlaying.jumpFlg = false ∧
    (freshPlaying.Update true zeroDraws).gy = -8 ∧
    ¬ ((freshPlaying.Update true zeroDraws).gy = -(17 / 2) ∧
       (freshPlaying.Update true zeroDraws).jumpFlg = true) := by
  decide!

/-- C4 (amended): in `modeGame` with `jumpFlg = false`, an `Update` with the key
pressed gives the impulse `gy = -8.5` and integrates it in the same tick: after
the `Update`, `gopherY` is the old value minus `8.5`, `gy` is `-8.5 + 0.5 = -8`,
and `jumpFlg` is true exactly when the new `gopherY` is still above the ground
line `groundY - gopherHeight = 85` (so it is true for a player who was at `85`). -/
theorem C4_jump_impulse (g : Game) (draws : Nat → Int)
    (hm : g.mode = modeGame) (hj : g.jumpFlg = false) :
    (g.Update true draws).gopherY = g.gopherY - 17 / 2 ∧
    (g.Update true draws).gy = -8 ∧
    ((g.Update true draws).jumpFlg = true ↔ g.gopherY - 17 / 2 < 85) ∧
    (g.gopherY = 85 → (g.Update true draws).jumpFlg = true) := by
  have hY : (g.tick true draws).gopherY = g.gopherY - 17 / 2 := by
    rw [tick_gopherY]
    simp [hj, jumpingPower]
    ring
  have hJ : (g.tick true draws).jumpFlg = true ↔ g.gopherY - 17 / 2 < 85 := by
    rw [tick_jumpFlg, hY]
    norm_num [groundY, gopherHeight]
  rw [Update_game g true draws hm]
  refine ⟨hY, ?_, hJ, fun h => hJ.2 (by rw [h]; norm_num)⟩
  rw [tick_gy]
  norm_num [hj, jumpingPower, gravity]

theorem C4_jump_impulse_witness :
    freshPlaying.mode = modeGame ∧ freshPlaying.jumpFlg = false ∧
    (freshPlaying.Update true zeroDraws).gy = -8 :=
  ⟨by decide, by decide,
    (C4_jump_impulse freshPlaying zeroDraws (by decide) (by decide)).2.1⟩

/-- C5: in `modeGame` with `jumpFlg = true` at the start of an `Update`, whatever
the input, the new `gopherY` is the old `gopherY` plus the old `gy`, and the new
`gy` is the old `gy` plus `0.5`: the position moves with the velocity from before
the increment. -/
theorem C5_gravity_step (g : Game) (key : Bool) (draws : Nat → Int)
    (hm : g.mode = modeGame) (hj : g.jumpFlg = true) :
    (g.Update key draws).gopherY = g.gopherY + g.gy ∧
    (g.Update key draws).gy = g.gy + 1 / 2 := by
  rw [Update_game g key draws hm, tick_gopherY, tick_gy]
  simp [hj, gravity]

theorem C5_gravity_step_witness :
    (freshPlaying.Update true zeroDraws).mode = modeGame ∧
    (freshPlaying.Update true zeroDraws).jumpFlg = true ∧
    ((freshPlaying.Update true zeroDraws).Update false zeroDraws).gy =
      (freshPlaying.Update true zeroDraws).gy + 1 / 2 :=
  ⟨by decide!, by decide!,
    (C5_gravity_step (freshPlaying.Update true zeroDraws) false zeroDraws
      (by decide!) (by decide!)).2⟩

/-- C6: in `modeGame`, whatever the input and the random draws, one `Update` makes
at most one obstacle slot go from hidden to visible, and a pool of 3 slots still
has 3 slots afterwards. -/
theorem C6_at_most_one_spawn (g : Game) (key : Bool) (draws : Nat → Int)
    (hm : g.mode = modeGame) (hl : g.ebifrys.length = maxEbifryCount) :
    (g.ebifrys.zip (g.Update key draws).ebifrys).countP spawnedSlot ≤ 1 ∧
    (g.Update key draws).ebifrys.length = 3 := by
  rw [Update_game g key draws hm, tick_ebifrys]
  exact ⟨scan_spawn_le_one _ _ _ _ _, by rw [scan_length, hl]; rfl⟩

theorem C6_at_most_one_spawn_witness :
    beforeFirstSpawn.mode = modeGame ∧ beforeFirstSpawn.ebifrys.length = maxEbifryCount ∧
    (beforeFirstSpawn.ebifrys.zip (beforeFirstSpawn.Update false zeroDraws).ebifrys).countP
      spawnedSlot ≤ 1 ∧
    (beforeFirstSpawn.Update false zeroDraws).ebifrys.length = 3 :=
  ⟨by decide!, by decide!,
    C6_at_most_one_spawn beforeFirstSpawn false zeroDraws (by decide!) (by decide!)⟩

/-- C7: in every state reachable from `NewGame` no visible obstacle has `x > 3000`;
and on a tick in `modeGame` from such a state, a slot that was visible before the
tick is hidden after it if and only if its `x` after the tick is greater than
3000, so a slot whose `x` is at most 3000 after the tick is still visible. -/
theorem C7_hidden_iff_out_of_screen (g : Game) (hr : Reachable g) :
    (∀ t ∈ g.ebifrys, t.visible = true → t.x ≤ 3000) ∧
    (g.mode = modeGame → ∀ (key : Bool) (draws : Nat → Int) (i : Nat) (t t' : ebifry),
      g.ebifrys[i]? = some t → (g.Update key draws).ebifrys[i]? = some t' →
      t.visible = true →
      (t'.visible = false ↔ t'.x > 3000) ∧ (t'.x ≤ 3000 → t'.visible = true)) := by
  have hinv := reachable_inScreen g hr
  refine ⟨hinv, fun hm key draws i t t' ht ht' hv => ?_⟩
  rw [Update_game g key draws hm, tick_ebifrys] at ht'
  have hiff : t'.visible = false ↔ t'.x > 3000 := by
    rcases scan_get _ _ _ _ 0 i t t' ht ht' with h | ⟨_, h⟩ | ⟨h, _⟩
    · rw [h, hv]
      have := hinv t (List.getElem?_mem ht) hv
      constructor
      · intro hc; exact absurd hc (by decide)
      · intro hc; omega
    · by_cases ho : (t.move speed).isOutOfScreen = true
      · rw [if_pos ho] at h
        rw [h]
        simpa [ebifry.hide, ebifry.isOutOfScreen] using ho
      · rw [if_neg ho] at h
        rw [h]
        simpa [ebifry.move, hv, ebifry.isOutOfScreen] using ho
    · rw [hv] at h
      exact absurd h (by decide)
  refine ⟨hiff, fun hx => ?_⟩
  cases hv' : t'.visible with
  | true => rfl
  | false => have := hiff.1 hv'; omega

theorem C7_hidden_iff_out_of_screen_witness :
    Reachable afterFirstSpawn ∧ afterFirstSpawn.mode = modeGame ∧
    afterFirstSpawn.ebifrys[0]? = some ebifry.zero.show_ ∧
    (afterFirstSpawn.Update false zeroDraws).ebifrys[0]? =
      some (ebifry.zero.show_.move speed) ∧
    (((ebifry.zero.show_.move speed).visible = false ↔ (ebifry.zero.show_.move speed).x > 3000) ∧
      ((ebifry.zero.show_.move speed).x ≤ 3000 → (ebifry.zero.show_.move speed).visible = true)) :=
  ⟨reachable_runUpdates _ _ reachable_freshPlaying, by decide!, by decide!, by decide!,
    (C7_hidden_iff_out_of_screen afterFirstSpawn
      (reachable_runUpdates _ _ reachable_freshPlaying)).2 (by decide!) false zeroDraws 0
      ebifry.zero.show_ (ebifry.zero.show_.move speed) (by decide!) (by decide!) (by decide)⟩

/-- C8: in `modeGame`, if an `Update` makes slot `i` go from hidden to visible, then
on that tick `ground.count` after its increment minus the old `lastEbifryX` is
greater than 50, `ground.count` after its increment is a multiple of 10, and the
random draw consulted for slot `i` (draw number `drawIndex`) was 0; afterwards
`lastEbifryX` equals `ground.count`, and the slot has `x = 0`, `y = groundY` and
`visible = true`. -/
theorem C8_spawn_only_in_gate (g : Game) (key : Bool) (draws : Nat → Int)
    (hm : g.mode = modeGame) (i : Nat) (t t' : ebifry)
    (ht : g.ebifrys[i]? = some t) (ht' : (g.Update key draws).ebifrys[i]? = some t')
    (hh : t.visible = false) (hv : t'.visible = true) :
    ((g.ground.count + 1) - g.lastEbifryX > 50 ∧ Int.tmod (g.ground.count + 1) 10 = 0 ∧
      draws (drawIndex g.ebifrys i) = 0) ∧
    ((g.Update key draws).ground.count = g.ground.count + 1 ∧
      (g.Update key draws).lastEbifryX = (g.Update key draws).ground.count) ∧
    (t'.x = 0 ∧ t'.y = (groundY : ℚ) ∧ t'.visible = true) := by
  rw [Update_game g key draws hm] at ht' ⊢
  rw [tick_ebifrys] at ht'
  rw [tick_ground_count, tick_lastEbifryX]
  rcases scan_get _ _ _ _ 0 i t t' ht ht' with h | ⟨h, _⟩ | ⟨_, h, hg, hd, hl⟩
  · rw [h, hh] at hv
    exact absurd hv (by decide)
  · rw [hh] at h
    exact absurd h (by decide)
  · refine ⟨⟨hg.1, hg.2, by simpa using hd⟩, ⟨rfl, hl⟩, ?_⟩
    rw [h]
    exact ⟨rfl, rfl, rfl⟩

theorem C8_spawn_only_in_gate_witness :
    beforeFirstSpawn.mode = modeGame ∧
    beforeFirstSpawn.ebifrys[0]? = some ebifry.zero ∧
    (beforeFirstSpawn.Update false zeroDraws).ebifrys[0]? = some ebifry.zero.show_ ∧
    ebifry.zero.visible = false ∧ ebifry.zero.show_.visible = true ∧
    (beforeFirstSpawn.ground.count + 1 - beforeFirstSpawn.lastEbifryX > 50 ∧
      Int.tmod (beforeFirstSpawn.ground.count + 1) 10 = 0 ∧
      zeroDraws (drawIndex beforeFirstSpawn.ebifrys 0) = 0) :=
  ⟨by decide!, by decide!, by decide!, by decide, by decide,
    (C8_spawn_only_in_gate beforeFirstSpawn false zeroDraws (by decide!) 0 ebifry.zero
      ebifry.zero.show_ (by decide!) (by decide!) (by decide) (by decide)).1⟩

/-- C9: with a random source that always returns 0, starting from a fresh game that
has just entered `modeGame`, whatever the key input: after fewer than 60 ticks
every slot is still hidden (nothing has been spawned) and `ground.count` is the
number of ticks played; the two gating tests fail for each of the ticks 1 to 59
and hold for tick 60; and after tick 60 slot 0 has been spawned (it is visible
with `x = 0` and `y = groundY = 110`) and the other two slots are still hidden. -/
theorem C9_first_spawn_at_tick_60 (keys : List Bool) :
    (keys.length < 60 →
      (∀ t ∈ (playKeys keys freshPlaying).ebifrys, t.visible = false) ∧
      (playKeys keys freshPlaying).ground.count = (keys.length : Int) ∧
      (playKeys keys freshPlaying).mode = modeGame) ∧
    (keys.length < 59 → ¬ spawnGate (playKeys keys freshPlaying)) ∧
    (keys.length = 59 → spawnGate (playKeys keys freshPlaying)) ∧
    (keys.length = 60 →
      (playKeys keys freshPlaying).ebifrys =
        [{ count := 0, x := 0, y := 110, visible := true },
          { count := 0, x := 0, y := 0, visible := false },
          { count := 0, x := 0, y := 0, visible := false }]) := by
  have hq : keys.length < 60 →
      (playKeys keys freshPlaying).mode = modeGame ∧
      (playKeys keys freshPlaying).ground.count = (keys.length : Int) ∧
      (playKeys keys freshPlaying).lastEbifryX = 0 ∧
      (playKeys keys freshPlaying).ebifrys = [ebifry.zero, ebifry.zero, ebifry.zero] := by
    intro h
    simpa using quiet_run keys freshPlaying 0 (by decide) (by decide) (by decide) (by decide)
      (by omega)
  refine ⟨fun h => ?_, fun h => ?_, fun h => ?_, fun h => ?_⟩
  · obtain ⟨h1, h2, _, h4⟩ := hq h
    exact ⟨by rw [h4]; decide, h2, h1⟩
  · obtain ⟨_, h2, h3, _⟩ := hq (by omega)
    unfold spawnGate
    rw [h2, h3, Int.tmod_eq_emod (by omega) (by decide)]
    unfold minEbifryDist interval
    omega
  · obtain ⟨_, h2, h3, _⟩ := hq (by omega)
    unfold spawnGate
    rw [h2, h3, h]
    decide
  · have hs : ebifry.zero.show_ = { count := 0, x := 0, y := 110, visible := true } := by
      simp [ebifry.show_, ebifry.zero, groundY]
    have hz : ebifry.zero = { count := 0, x := 0, y := 0, visible := false } := rfl
    rw [← hs, ← hz]
    exact spawn_run keys freshPlaying 0 (by decide) (by decide) (by decide) (by decide)
      (by omega) (by omega)

theorem C9_first_spawn_at_tick_60_witness :
    (playKeys (List.replicate 60 false) freshPlaying).ebifrys =
      [{ count := 0, x := 0, y := 110, visible := true },
        { count := 0, x := 0, y := 0, visible := false },
        { count := 0, x := 0, y := 0, visible := false }] :=
  (C9_first_spawn_at_tick_60 (List.replicate 60 false)).2.2.2 (by decide)

/-- C10: in `modeGameover`, an `Update` with the key pressed gives `modeGame` with
the state reset: `count = 0`, `score = 0`, `lastEbifryX = 0`, three obstacle slots
all hidden, and the player at the spawn position (`gopherX = baseX`,
`gopherY = groundY - gopherHeight = 85`, `gy = 0`, `jumpFlg = false`).  The fields
that `init` assigns are reset from every state; `jumpFlg`, which `init` leaves
alone, is false after the restart from every `modeGameover` state that a run from
`NewGame` can reach, because the tick that detects a collision has cleared it. -/
theorem C10_restart_resets (g : Game) (draws : Nat → Int) (hm : g.mode = modeGameover) :
    (g.Update true draws).mode = modeGame ∧
    ((g.Update true draws).count = 0 ∧ (g.Update true draws).score = 0 ∧
      (g.Update true draws).lastEbifryX = 0) ∧
    ((g.Update true draws).ebifrys.length = 3 ∧
      ∀ t ∈ (g.Update true draws).ebifrys, t.visible = false) ∧
    ((g.Update true draws).gopherX = baseX ∧
      (g.Update true draws).gopherY = ((groundY - gopherHeight : Int) : ℚ) ∧
      (g.Update true draws).gopherY = 85 ∧ (g.Update true draws).gy = 0) ∧
    (g.Update true draws).jumpFlg = g.jumpFlg ∧
    (Reachable g → (g.Update true draws).jumpFlg = false) := by
  rw [Update_gameover g true draws hm]
  refine ⟨rfl, ⟨rfl, rfl, rfl⟩, ⟨rfl, ?_⟩, ⟨rfl, rfl, ?_, rfl⟩, rfl, fun hr => ?_⟩
  · show ∀ t ∈ [ebifry.zero, ebifry.zero, ebifry.zero], t.visible = false
    decide
  · simp [Game.init, groundY, gopherHeight]
  · exact reachable_gameover_landed g hr hm

theorem C10_restart_resets_witness :
    Reachable afterCollision ∧ afterCollision.mode = modeGameover ∧
    (afterCollision.Update true zeroDraws).mode = modeGame ∧
    (afterCollision.Update true zeroDraws).jumpFlg = false :=
  ⟨reachable_runUpdates _ _ reachable_freshPlaying, by decide!,
    (C10_restart_resets afterCollision zeroDraws (by decide!)).1,
    (C10_restart_resets afterCollision zeroDraws (by decide!)).2.2.2.2.2
      (reachable_runUpdates _ _ reachable_freshPlaying)⟩

/-- C11, as the claim states it, fails on the first collision of a game played
without jumping: the `Update` that detects the collision leaves `hiscore = 0`
while the score of that tick is 45. -/
theorem C11_counterexample :
    beforeCollision.mode = modeGame ∧
    (beforeCollision.Update false zeroDraws).mode = modeGameover ∧
    (beforeCollision.Update false zeroDraws).score = 45 ∧
    (beforeCollision.Update false zeroDraws).hiscore = 0 ∧
    ¬ (beforeCollision.Update false zeroDraws).hiscore =
      (beforeCollision.Update false zeroDraws).score := by
  decide!

/-- C11 (amended): in `modeGame`, an `Update` that detects a collision and moves
the game to `modeGameover` leaves `hiscore` as it was; `hiscore` takes the score
of the collision tick only when the next round starts, on the `Update` in
`modeGameover` with the key pressed (an `Update` there without the key changes
nothing). -/
theorem C11_hiscore_set_on_restart (g : Game) (key : Bool) (draws : Nat → Int)
    (hm : g.mode = modeGame) (hc : (g.Update key draws).mode = modeGameover) :
    (g.Update key draws).hiscore = g.hiscore ∧
    (∀ draws2 : Nat → Int,
      ((g.Update key draws).Update false draws2) = g.Update key draws) ∧
    (∀ draws2 : Nat → Int,
      ((g.Update key draws).Update true draws2).hiscore = (g.Update key draws).score) := by
  refine ⟨?_, fun d => ?_, fun d => ?_⟩
  · rw [Update_game g key draws hm, tick_hiscore]
  · rw [Update_gameover _ false d hc]
    rfl
  · rw [Update_gameover _ true d hc]
    rfl

theorem C11_hiscore_set_on_restart_witness :
    beforeCollision.mode = modeGame ∧
    (beforeCollision.Update false zeroDraws).mode = modeGameover ∧
    (beforeCollision.Update false zeroDraws).hiscore = beforeCollision.hiscore :=
  ⟨by decide!, by decide!,
    (C11_hiscore_set_on_restart beforeCollision false zeroDraws (by decide!) (by decide!)).1⟩

/-- C12, as the claim states it, fails on a second round that ends with a lower
score than the first: the first round ends with score 47, the second with score
45 while `hiscore = 47`, and once the third round starts `hiscore` is 45, not
`max 47 45 = 47`. -/
theorem C12_counterexample :
    Reachable secondCollision ∧ secondCollision.mode = modeGameover ∧
    secondCollision.hiscore = 47 ∧ secondCollision.score = 45 ∧
    (secondCollision.Update true zeroDraws).mode = modeGame ∧
    (secondCollision.Update true zeroDraws).hiscore = 45 ∧
    ¬ (secondCollision.Update true zeroDraws).hiscore =
      max secondCollision.hiscore secondCollision.score :=
  ⟨reachable_runUpdates _ _ reachable_freshPlaying, by decide!, by decide!, by decide!,
    by decide!, by decide!, by decide!⟩

/-- C12 (amended): when the next round starts (the `Update` in `modeGameover` with
the key pressed), `hiscore` is set to the score of the round that just ended,
whatever it held before: it equals the maximum of the previous `hiscore` and that
score exactly when the previous `hiscore` was not greater, and it decreases when
the round's score is lower. -/
theorem C12_hiscore_is_last_score (g : Game) (draws : Nat → Int)
    (hm : g.mode = modeGameover) :
    (g.Update true draws).hiscore = g.score ∧
    ((g.Update true draws).hiscore = max g.hiscore g.score ↔ g.hiscore ≤ g.score) ∧
    (g.score < g.hiscore → (g.Update true draws).hiscore < g.hiscore) := by
  have h : (g.Update true draws).hiscore = g.score := by
    rw [Update_gameover g true draws hm]
    rfl
  rw [h]
  refine ⟨rfl, ⟨fun h1 => ?_, fun h1 => (max_eq_right h1).symm⟩, fun h1 => h1⟩
  rw [h1]
  exact le_max_left _ _

theorem C12_hiscore_is_last_score_witness :
    secondCollision.mode = modeGameover ∧
    (secondCollision.Update true zeroDraws).hiscore = secondCollision.score :=
  ⟨by decide!, (C12_hiscore_is_last_score secondCollision zeroDraws (by decide!)).1⟩

/-- C13, as the claim states it, fails: in the ten ticks of the scenario there is
no tick on which `gopherY` increases; it is still decreasing on tick 5 and on
tick 10. -/
theorem C13_counterexample :
    (¬ ∃ k, k < 10 ∧
      (runUpdates (scenarioInputs.take k) freshPlaying).gopherY <
        (runUpdates (scenarioInputs.take (k + 1)) freshPlaying).gopherY) ∧
    (runUpdates (scenarioInputs.take 5) freshPlaying).gopherY <
      (runUpdates (scenarioInputs.take 4) freshPlaying).gopherY ∧
    (runUpdates (scenarioInputs.take 10) freshPlaying).gopherY <
      (runUpdates (scenarioInputs.take 9) freshPlaying).gopherY := by
  decide!

/-- C13 (amended): from a freshly reset game in `modeGame`, ten `Update`s with the
key pressed on the first one only, whatever the draws: `jumpFlg` is true after
tick 1, `gopherY` after tick `n` is `85 + n (n - 35) / 4`, so it decreases
strictly on every one of the ten ticks (the player is still rising, down to
`22.5` after tick 10), and `score = 2` after tick 10. -/
theorem C13_jump_scenario (inputs : List (Bool × (Nat → Int)))
    (hk : inputs.map Prod.fst = true :: List.replicate 9 false) :
    (runUpdates (inputs.take 1) freshPlaying).jumpFlg = true ∧
    (∀ n, n ≤ 10 →
      (runUpdates (inputs.take n) freshPlaying).gopherY =
        85 + (n : ℚ) * ((n : ℚ) - 35) / 4) ∧
    (∀ k, k < 10 →
      (runUpdates (inputs.take (k + 1)) freshPlaying).gopherY <
        (runUpdates (inputs.take k) freshPlaying).gopherY) ∧
    (runUpdates inputs freshPlaying).gopherY = 45 / 2 ∧
    (runUpdates inputs freshPlaying).score = 2 := by
  have hlen : inputs.length = 10 := by
    have := congrArg List.length hk
    simpa using this
  have hall : inputs.take 10 = inputs := by
    rw [← hlen]
    exact List.take_length inputs
  refine ⟨((scenario_height inputs hk 1 (by omega)).2 (le_refl 1)).1,
    fun n hn => (scenario_height inputs hk n hn).1, fun k hk10 => ?_, ?_, ?_⟩
  · rw [(scenario_height inputs hk (k + 1) (by omega)).1, (scenario_height inputs hk k (by omega)).1]
    have h1 : (k : ℚ) < 10 := by exact_mod_cast hk10
    push_cast
    nlinarith
  · have := (scenario_height inputs hk 10 (le_refl 10)).1
    rw [hall] at this
    rw [this]
    norm_num
  · obtain ⟨_, h2, h3⟩ := (scenario_height inputs hk 10 (le_refl 10)).2 (by omega)
    rw [hall] at h2 h3
    rw [h3, h2]
    decide

theorem C13_jump_scenario_witness :
    scenarioInputs.map Prod.fst = true :: List.replicate 9 false ∧
    (runUpdates scenarioInputs freshPlaying).gopherY = 45 / 2 ∧
    (runUpdates scenarioInputs freshPlaying).score = 2 :=
  ⟨by decide, (C13_jump_scenario scenarioInputs (by decide)).2.2.2⟩

/-- C14: an `Update` outside `modeGame` does not touch the simulation.  In
`modeTitle` it changes no field other than `mode` (no `init` on that path); in
`modeGameover` without the key it changes nothing at all, so `score` keeps the
value of the collision tick. -/
theorem C14_frame_outside_game (g : Game) (key : Bool) (draws : Nat → Int) :
    (g.mode = modeTitle →
      g.Update key draws = { g with mode := (g.Update key draws).mode }) ∧
    (g.mode = modeGameover →
      g.Update false draws = g ∧ (g.Update false draws).score = g.score) := by
  refine ⟨fun h => ?_, fun h => ?_⟩
  · rw [Update_title g key draws h]
    cases key <;> rfl
  · rw [Update_gameover g false draws h]
    exact ⟨rfl, rfl⟩

theorem C14_frame_outside_game_witness :
    afterCollision.mode = modeGameover ∧ afterCollision.Update false zeroDraws = afterCollision :=
  ⟨by decide!, ((C14_frame_outside_game afterCollision false zeroDraws).2 (by decide!)).1⟩

/-- C15, as the claim states it, fails: no state reachable from `NewGame` is taken
by a tick to `gopherY > 85` with `jumpFlg = false`. -/
theorem C15_counterexample :
    ¬ ∃ (g : Game) (key : Bool) (draws : Nat → Int), Reachable g ∧ g.mode = modeGame ∧
      (g.Update key draws).gopherY > 85 ∧ (g.Update key draws).jumpFlg = false := by
  rintro ⟨g, key, draws, hr, _, hy, hj⟩
  rcases reachable_on_arc _ (Reachable.update key draws hr) with h | ⟨_, k, _, _, h⟩
  · rw [h.2] at hy
    exact absurd hy (lt_irrefl _)
  · rw [h.1] at hj
    exact absurd hj (by decide)

/-- C15 (amended): in every state reachable from `NewGame`, `gopherY ≤ 85`, and
`gopherY = 85` whenever `jumpFlg` is false: a jump lands exactly on the ground
line, so the player never sinks below it.  The landing test itself does not
clamp: from a state in `modeGame` with `jumpFlg = true` and `gopherY + gy > 85`
(none is reachable) the tick ends with `gopherY` above 85 and `jumpFlg = false`. -/
theorem C15_never_below_ground (g : Game) :
    (Reachable g → g.gopherY ≤ 85 ∧ (g.jumpFlg = false → g.gopherY = 85)) ∧
    (∀ (key : Bool) (draws : Nat → Int), g.mode = modeGame → g.jumpFlg = true →
      g.gopherY + g.gy > 85 →
      (g.Update key draws).gopherY = g.gopherY + g.gy ∧
      (g.Update key draws).gopherY > 85 ∧ (g.Update key draws).jumpFlg = false) := by
  refine ⟨fun hr => ?_, fun key draws hm hj hy => ?_⟩
  · rcases reachable_on_arc g hr with h | ⟨_, k, hk1, hk2, h⟩
    · exact ⟨le_of_eq h.2, fun _ => h.2⟩
    · refine ⟨le_of_lt (inJump_below _ _ h hk1 hk2), fun hf => ?_⟩
      rw [h.1] at hf
      exact absurd hf (by decide)
  · have hY : (g.tick key draws).gopherY = g.gopherY + g.gy := by
      rw [tick_gopherY, hj]
      rfl
    rw [Update_game g key draws hm]
    refine ⟨hY, by rw [hY]; exact hy, ?_⟩
    rw [tick_jumpFlg, if_pos]
    rw [hY]
    have hg : ((groundY - gopherHeight : Int) : ℚ) = 85 := by norm_num [groundY, gopherHeight]
    rw [hg]
    exact le_of_lt hy

theorem C15_never_below_ground_witness :
    Reachable afterCollision ∧ afterCollision.gopherY ≤ 85 ∧
    (fallingFast.Update false zeroDraws).gopherY = fallingFast.gopherY + fallingFast.gy :=
  ⟨reachable_runUpdates _ _ reachable_freshPlaying,
    ((C15_never_below_ground afterCollision).1
      (reachable_runUpdates _ _ reachable_freshPlaying)).1,
    ((C15_never_below_ground fallingFast).2 false zeroDraws (by decide) (by decide)
      (by decide!)).1⟩

/-- C16: from any state in `modeGame` with `jumpFlg = false` and `gopherY = 85`, a
tick with the key pressed followed by further ticks with any input and any
draws: after each of the first 34 ticks `gopherY < 85`, `jumpFlg = true` and the
mode is still `modeGame` (no collision, no second impulse), and after the 35th
tick `gopherY = 85` exactly and `jumpFlg = false`. -/
theorem C16_jump_lasts_35_ticks (g : Game) (d : Nat → Int)
    (rest : List (Bool × (Nat → Int)))
    (hm : g.mode = modeGame) (hj : g.jumpFlg = false) (hy : g.gopherY = 85) :
    (rest.length ≤ 33 →
      (runUpdates ((true, d) :: rest) g).gopherY < 85 ∧
      (runUpdates ((true, d) :: rest) g).jumpFlg = true ∧
      (runUpdates ((true, d) :: rest) g).mode = modeGame) ∧
    (rest.length = 34 →
      (runUpdates ((true, d) :: rest) g).gopherY = 85 ∧
      (runUpdates ((true, d) :: rest) g).jumpFlg = false) := by
  refine ⟨fun hl => ?_, fun hl => ?_⟩
  · obtain ⟨r1, r2, _, _⟩ := jump_from_ground g d rest hm ⟨hj, hy⟩ hl
    exact ⟨inJump_below _ _ r2 (by omega) (by omega), r2.1, r1⟩
  · have hstep : g.Update true d = g.tick true d := Update_game g true d hm
    have hj' : inJump 1 (g.tick true d) := tick_launch g d ⟨hj, hy⟩
    have hm' : (g.tick true d).mode = modeGame := by
      rw [tick_mode_of_off_ground, hm]
      exact ne_of_lt (inJump_below _ _ hj' (le_refl 1) (by omega))
    obtain ⟨⟨r1, r2⟩, _⟩ :=
      jump_land rest (g.tick true d) 1 hm' hj' (le_refl 1) (by omega) (by omega)
    simp only [runUpdates, hstep]
    exact ⟨r2, r1⟩

theorem C16_jump_lasts_35_ticks_witness :
    freshPlaying.mode = modeGame ∧ freshPlaying.jumpFlg = false ∧ freshPlaying.gopherY = 85 ∧
    (runUpdates ((true, zeroDraws) :: List.replicate 34 (false, zeroDraws))
        freshPlaying).gopherY = 85 ∧
    (runUpdates ((true, zeroDraws) :: List.replicate 34 (false, zeroDraws))
        freshPlaying).jumpFlg = false :=
  ⟨by decide, by decide, by decide!,
    (C16_jump_lasts_35_ticks freshPlaying zeroDraws (List.replicate 34 (false, zeroDraws))
      (by decide) (by decide) (by decide!)).2 (by decide)⟩

/-- C17: under the host frame loop that alternates `Update` and `Draw` from
`NewGame`, after every `Update` `count ≤ 95`, `score ≤ 19` and `hiscore ≤ 19`, and
after every `Draw` `count ≤ 94` with the same bounds on `score` and `hiscore`:
`Draw` sets `count` back to 0 exactly when `(count / 5) mod 27 ≥ 19`. -/
theorem C17_host_loop_bounds (g : Game) :
    (HostReachable g →
      (g.count ≤ 94 ∧ g.score ≤ 19 ∧ g.hiscore ≤ 19) ∧
      ∀ (key : Bool) (draws : Nat → Int),
        (g.Update key draws).count ≤ 95 ∧ (g.Update key draws).score ≤ 19 ∧
        (g.Update key draws).hiscore ≤ 19) ∧
    g.Draw.count = (if 19 ≤ Int.tmod (Int.tdiv g.count 5) 27 then 0 else g.count) := by
  refine ⟨fun h => ?_, Draw_count g⟩
  have hb := host_bounds g h
  refine ⟨⟨hb.1.2, hb.2⟩, fun key draws => ?_⟩
  have hu := Update_bounds g key draws hb
  exact ⟨hu.1.2, hu.2⟩

theorem C17_host_loop_bounds_witness :
    HostReachable (NewGame.Update true zeroDraws).Draw ∧
    ((NewGame.Update true zeroDraws).Draw.Update false zeroDraws).count ≤ 95 :=
  ⟨HostReachable.frame true zeroDraws HostReachable.start,
    (((C17_host_loop_bounds (NewGame.Update true zeroDraws).Draw).1
      (HostReachable.frame true zeroDraws HostReachable.start)).2 false zeroDraws).1⟩

/-- C18: on a tick in `modeGame` on which slot `i` is spawned, every slot after `i`
is left exactly as it was (a visible one is neither moved nor hidden), and every
visible slot before `i` has had `x` increased by exactly 12; on a tick on which
no slot is spawned, every visible slot has had `x` increased by exactly 12. -/
theorem C18_scan_stops_at_spawn (g : Game) (key : Bool) (draws : Nat → Int)
    (hm : g.mode = modeGame) :
    (∀ (i : Nat) (t t' : ebifry), g.ebifrys[i]? = some t →
      (g.Update key draws).ebifrys[i]? = some t' → t.visible = false → t'.visible = true →
      (∀ j, i < j → (g.Update key draws).ebifrys[j]? = g.ebifrys[j]?) ∧
      (∀ (j : Nat) (s s' : ebifry), j < i → g.ebifrys[j]? = some s →
        (g.Update key draws).ebifrys[j]? = some s' → s.visible = true → s'.x = s.x + 12)) ∧
    ((∀ (i : Nat) (t t' : ebifry), g.ebifrys[i]? = some t →
        (g.Update key draws).ebifrys[i]? = some t' → t.visible = false → t'.visible = false) →
      ∀ (j : Nat) (s s' : ebifry), g.ebifrys[j]? = some s →
        (g.Update key draws).ebifrys[j]? = some s' → s.visible = true → s'.x = s.x + 12) := by
  rw [Update_game g key draws hm, tick_ebifrys]
  refine ⟨fun i t t' h h' hh hv => ⟨?_, ?_⟩, fun hno => ?_⟩
  · exact scan_after_spawn _ _ _ _ 0 i t t' h h' hh hv
  · exact scan_before_spawn _ _ _ _ 0 i t t' h h' hh hv
  · exact scan_no_spawn _ _ _ _ 0 hno

theorem C18_scan_stops_at_spawn_witness :
    mixedPool.mode = modeGame ∧
    mixedPool.ebifrys[1]? = some ebifry.zero ∧
    (mixedPool.Update false zeroDraws).ebifrys[1]? = some ebifry.zero.show_ ∧
    (mixedPool.Update false zeroDraws).ebifrys[2]? = mixedPool.ebifrys[2]? ∧
    (mixedPool.Update false zeroDraws).ebifrys[0]? =
      some { count := 0, x := 112, y := 110, visible := true } :=
  ⟨by decide, by decide, by decide!,
    ((C18_scan_stops_at_spawn mixedPool false zeroDraws (by decide)).1 1 ebifry.zero
      ebifry.zero.show_ (by decide) (by decide!) (by decide) (by decide)).1 2 (by decide),
    by decide!⟩

end GopherJump
